import Mathlib

/-!
Shallow embedding of the request dispatch and transfer engine of
RustyObjectStore.jl (`src/deps/rust_store/src/lib.rs`, with
`src/deps/object_store_ffi/src/lib.rs` as an earlier variant of the same
design).  Pure data and control flow are translated directly from the Rust
source; interactions with the external `object_store` provider client are
modelled as oracle records (one field per fallible provider call), and the
side effects of a worker (buffer writes, response writes, notifier
invocations) are reified as an event trace.
-/

namespace RustStore

/-- `CResult` from the source: the status enum shared by synchronous API
returns and the asynchronous `Response`. -/
inductive CResult where
  | Uninitialized
  | Ok
  | Error
  | Backoff
deriving DecidableEq, Repr

/-- `Response` from the source: the record Julia allocates and Rust fills in.
The `error_message` pointer is modelled as `none` (null) or `some msg`
(an owned C string). -/
structure Response where
  result : CResult
  length : Nat
  error_message : Option String
deriving DecidableEq, Repr

/-- `Response::success`: the fields written by a successful operation.  The
source mutates in place ignoring prior contents, so the model returns the
full record written. -/
def Response.success (length : Nat) : Response :=
  { result := CResult.Ok, length := length, error_message := none }

/-- `Response::_error`: terminal error with a literal message. -/
def Response._error (msg : String) : Response :=
  { result := CResult.Error, length := 0, error_message := some msg }

/-- `Response::from_error`: terminal error with a formatted message. -/
def Response.from_error (msg : String) : Response :=
  { result := CResult.Error, length := 0, error_message := some msg }

/-- The side effects a worker performs while processing one request:
a write of `data` into the caller's buffer at byte offset `off`, a write of
the caller's `Response` record, or an invocation of the request's notifier
(`uv_async_send`). -/
inductive Event where
  | writeBuf (off : Nat) (data : List Nat)
  | setResponse (r : Response)
  | notify
deriving DecidableEq, Repr

/-- `part_size` in `multipart_get` and in the GET/PUT dispatch arms:
`8 * 1024 * 1024` (8 MiB). -/
def part_size : Nat := 8 * 1024 * 1024

/-- The number of parts computed by `multipart_get`:
`let mut parts = result.size / part_size; if result.size % part_size != 0
{ parts += 1 }`. -/
def partsCount (size : Nat) : Nat :=
  let parts := size / part_size
  if size % part_size != 0 then parts + 1 else parts

/-- The range list built by `multipart_get`: `parts - 1` full ranges of
`part_size` bytes followed by a final remainder range ending at `size`.
The source computes `parts - 1` on `usize`; when `parts = 0` (object size
zero) that subtraction underflows (panic in a debug build, wraparound and
an effectively unbounded loop in a release build), which the model marks
as `none`.  Ranges are `(start, stop)` pairs, `stop` exclusive. -/
def partRanges (size : Nat) : Option (List (Nat × Nat)) :=
  let parts := partsCount size
  if parts = 0 then
    none
  else
    some ((List.range (parts - 1)).map (fun i => (i * part_size, (i + 1) * part_size))
      ++ [((parts - 1) * part_size, size)])

/-- Oracle for the provider calls made while serving one GET request:
`CLIENTS.try_get_with(hash, connect(..))`, `client.head`,
`client.get_ranges` and `client.get` followed by collecting the chunk
stream.  Opaque values (the client itself) are `Unit`; payload bytes are
`List Nat`. -/
structure GetEnv where
  resolveClient : Except String Unit
  headSize : Except String Nat
  get_ranges : List (Nat × Nat) → Except String (List (List Nat))
  getChunks : Except String (List (Except String (List Nat)))

/-- The copy loop of the task spawned by `multipart_get`: parts are copied
into the buffer back to back (`accum` tracks the next offset, advanced by
each returned part's length).  A part that would run past the buffer makes
the Rust slice indexing panic inside the spawned task; the `JoinError`
surfaces through `.await?`, which the model renders as an error result
(prior in-bounds writes persist). -/
def mpCopy (parts : List (List Nat)) (bufLen accum : Nat) :
    List Event × Except String Nat :=
  match parts with
  | [] => ([], Except.ok accum)
  | p :: rest =>
    if accum + p.length ≤ bufLen then
      let r := mpCopy rest bufLen (accum + p.length)
      (Event.writeBuf accum p :: r.1, r.2)
    else
      ([], Except.error "copy task panicked")

/-- `multipart_get` from the source: head the object, fail if its size
exceeds the buffer, compute the part ranges, issue `get_ranges`, then copy
the parts sequentially into the buffer.  `none` marks the `parts - 1`
usize underflow (size-zero object). -/
def multipart_get (env : GetEnv) (bufLen : Nat) :
    Option (List Event × Except String Nat) :=
  match env.headSize with
  | Except.error e => some ([], Except.error e)
  | Except.ok size =>
    if size > bufLen then
      some ([], Except.error "Supplied buffer was too small")
    else
      match partRanges size with
      | none => none
      | some ranges =>
        match env.get_ranges ranges with
        | Except.error e => some ([], Except.error e)
        | Except.ok parts => some (mpCopy parts bufLen 0)

/-- The chunk-copy task spawned in the single-part GET arm of `start`:
chunks are copied in receipt order while they fit; the first chunk that
would overflow the buffer sets the capacity error and stops (`failed`
breaks the loop), otherwise success records the received byte count. -/
def copyChunks (chunks : List (List Nat)) (bufLen received : Nat) : List Event :=
  match chunks with
  | [] => [Event.setResponse (Response.success received)]
  | c :: rest =>
    if received + c.length > bufLen then
      [Event.setResponse (Response._error "Supplied buffer was too small")]
    else
      Event.writeBuf received c :: copyChunks rest bufLen (received + c.length)

/-- `chunks.iter().find(|result| result.is_err())` from the single-part GET
arm: the first error among the collected stream chunks, if any. -/
def firstChunkError (chunks : List (Except String (List Nat))) : Option String :=
  chunks.findSome? (fun c => match c with
    | Except.error e => some e
    | Except.ok _ => none)

/-- The payloads of an all-`Ok` chunk list (the `unreachable!` arm of the
spawned copy task never fires once `firstChunkError` is `none`). -/
def okChunks (chunks : List (Except String (List Nat))) : List (List Nat) :=
  chunks.filterMap (fun c => match c with
    | Except.error _ => none
    | Except.ok d => some d)

/-- The `Request::Get` arm of the dispatch loop in `start`: resolve the
client through the cache, take the multipart path when the destination
buffer is larger than `part_size`, otherwise the single-part path.
The result is the worker's event trace; `none` marks the panicking
size-zero multipart range computation, on which no response is written and
no notification happens. -/
def processGet (env : GetEnv) (bufLen : Nat) : Option (List Event) :=
  match env.resolveClient with
  | Except.error e => some [Event.setResponse (Response.from_error e), Event.notify]
  | Except.ok _ =>
    if bufLen > part_size then
      match multipart_get env bufLen with
      | none => none
      | some (evs, Except.ok accum) =>
        some (evs ++ [Event.setResponse (Response.success accum), Event.notify])
      | some (evs, Except.error e) =>
        some (evs ++ [Event.setResponse (Response.from_error e), Event.notify])
    else
      match env.getChunks with
      | Except.error e => some [Event.setResponse (Response.from_error e), Event.notify]
      | Except.ok chunks =>
        match firstChunkError chunks with
        | some e => some [Event.setResponse (Response.from_error e), Event.notify]
        | none => some (copyChunks (okChunks chunks) bufLen 0 ++ [Event.notify])

/-- Notifier invocations recorded in a trace. -/
def notifies (tr : List Event) : Nat :=
  tr.countP (fun e => match e with | Event.notify => true | _ => false)

/-- The `Response` records written in a trace, in order. -/
def responses (tr : List Event) : List Response :=
  tr.filterMap (fun e => match e with
    | Event.setResponse r => some r
    | _ => none)

/-- The buffer writes recorded in a trace, in order: `(offset, data)`. -/
def writes (tr : List Event) : List (Nat × List Nat) :=
  tr.filterMap (fun e => match e with
    | Event.writeBuf off data => some (off, data)
    | _ => none)

/-- Total length of a chunk list. -/
def chunksLen (cs : List (List Nat)) : Nat :=
  (cs.map List.length).sum

/-- The buffer writes that copying the chunk list `cs` back to back
starting at offset `received` would perform. -/
def seqWrites (cs : List (List Nat)) (received : Nat) : List (Nat × List Nat) :=
  match cs with
  | [] => []
  | c :: rest => (received, c) :: seqWrites rest (received + c.length)

/-- The provider calls a PUT request can make, with the source-slice length
recorded where the call takes the buffer. -/
inductive PutCall where
  | put (len : Nat)
  | openMultipart
  | writeAll (len : Nat)
  | flush
  | shutdown
  | abort
deriving DecidableEq, Repr

/-- Oracle for the provider calls made while serving one PUT request:
cache resolution, `client.put`, `client.put_multipart`,
`writer.write_all`, `writer.flush`, `writer.shutdown` and
`client.abort_multipart`. -/
structure PutEnv where
  resolveClient : Except String Unit
  put : Except String Unit
  put_multipart : Except String Unit
  write_all : Except String Unit
  flush : Except String Unit
  shutdown : Except String Unit
  abort_multipart : Except String Unit

/-- `multipart_put` from the source: open the multipart upload, write the
whole source slice, flush, shut down.  A failed `write_all` or `flush`
calls `abort_multipart` and then returns through `?`: when the abort
succeeds the original error is returned, but when the abort itself fails
the `?` operator returns the abort error instead.  A failed `shutdown`
returns through `?` without any abort. -/
def multipart_put (env : PutEnv) (len : Nat) : List PutCall × Except String Unit :=
  match env.put_multipart with
  | Except.error e => ([PutCall.openMultipart], Except.error e)
  | Except.ok _ =>
    match env.write_all with
    | Except.error e =>
      match env.abort_multipart with
      | Except.ok _ =>
        ([PutCall.openMultipart, PutCall.writeAll len, PutCall.abort], Except.error e)
      | Except.error ea =>
        ([PutCall.openMultipart, PutCall.writeAll len, PutCall.abort], Except.error ea)
    | Except.ok _ =>
      match env.flush with
      | Except.error e =>
        match env.abort_multipart with
        | Except.ok _ =>
          ([PutCall.openMultipart, PutCall.writeAll len, PutCall.flush, PutCall.abort],
            Except.error e)
        | Except.error ea =>
          ([PutCall.openMultipart, PutCall.writeAll len, PutCall.flush, PutCall.abort],
            Except.error ea)
      | Except.ok _ =>
        match env.shutdown with
        | Except.error e =>
          ([PutCall.openMultipart, PutCall.writeAll len, PutCall.flush, PutCall.shutdown],
            Except.error e)
        | Except.ok _ =>
          ([PutCall.openMultipart, PutCall.writeAll len, PutCall.flush, PutCall.shutdown],
            Except.ok ())

/-- The `Request::Put` arm of the dispatch loop in `start`: resolve the
client, then `if len < 8 * 1024 * 1024` do a single `client.put` of the
whole slice, else `multipart_put`.  Returns the provider calls made and
the worker's event trace. -/
def processPut (env : PutEnv) (len : Nat) : List PutCall × List Event :=
  match env.resolveClient with
  | Except.error e => ([], [Event.setResponse (Response.from_error e), Event.notify])
  | Except.ok _ =>
    if len < part_size then
      match env.put with
      | Except.ok _ =>
        ([PutCall.put len], [Event.setResponse (Response.success len), Event.notify])
      | Except.error e =>
        ([PutCall.put len], [Event.setResponse (Response.from_error e), Event.notify])
    else
      match multipart_put env len with
      | (cs, Except.ok _) =>
        (cs, [Event.setResponse (Response.success len), Event.notify])
      | (cs, Except.error e) =>
        (cs, [Event.setResponse (Response.from_error e), Event.notify])

/-- Capacity of the dispatch queue: `async_channel::bounded(16 * 1024)`. -/
def queue_capacity : Nat := 16 * 1024

/-- State of the bounded dispatch channel seen by `try_send`: open with a
number of pending requests, or closed. -/
inductive QueueState where
  | active (pending : Nat)
  | closed
deriving DecidableEq, Repr

/-- Outcome of `async_channel::Sender::try_send` on the bounded channel:
the message is enqueued, or the channel is full, or it is closed. -/
inductive TrySendResult where
  | sent (q : QueueState)
  | full
  | closedErr
deriving DecidableEq, Repr

/-- `try_send` semantics of the bounded channel: enqueue when open and not
full, `Full` when at capacity, `Closed` when closed. -/
def try_send (q : QueueState) : TrySendResult :=
  match q with
  | QueueState.closed => TrySendResult.closedErr
  | QueueState.active n =>
    if n < queue_capacity then TrySendResult.sent (QueueState.active (n + 1))
    else TrySendResult.full

/-- What one submission call returns and does: the synchronous `CResult`,
the queue state after the call (`none` when the sender was never
installed), the caller's `Response` record after the call, whether the
request was enqueued, and how many notifier invocations the call itself
performed. -/
structure SubmitResult where
  ret : CResult
  queue : Option QueueState
  response : Response
  enqueued : Bool
  notifications : Nat
deriving DecidableEq, Repr

/-- `perform_get` from the source, its synchronous part: it first writes
`response.result = CResult::Uninitialized`, then consults `SQ.get()` —
`None` (sender not yet installed by the task spawned in `start`) returns
`Error`; otherwise `try_send` maps enqueued to `Ok`, a full channel to
`Backoff` and a closed channel to `Error`.  No notifier invocation happens
during the call. -/
def perform_get (sq : Option QueueState) (resp : Response) : SubmitResult :=
  let resp2 := { resp with result := CResult.Uninitialized }
  match sq with
  | none =>
    { ret := CResult.Error, queue := none, response := resp2,
      enqueued := false, notifications := 0 }
  | some q =>
    match try_send q with
    | TrySendResult.sent q2 =>
      { ret := CResult.Ok, queue := some q2, response := resp2,
        enqueued := true, notifications := 0 }
    | TrySendResult.full =>
      { ret := CResult.Backoff, queue := some q, response := resp2,
        enqueued := false, notifications := 0 }
    | TrySendResult.closedErr =>
      { ret := CResult.Error, queue := some q, response := resp2,
        enqueued := false, notifications := 0 }

/-- `perform_put` from the source, its synchronous part: textually the same
submission logic as `perform_get` (the source duplicates it). -/
def perform_put (sq : Option QueueState) (resp : Response) : SubmitResult :=
  let resp2 := { resp with result := CResult.Uninitialized }
  match sq with
  | none =>
    { ret := CResult.Error, queue := none, response := resp2,
      enqueued := false, notifications := 0 }
  | some q =>
    match try_send q with
    | TrySendResult.sent q2 =>
      { ret := CResult.Ok, queue := some q2, response := resp2,
        enqueued := true, notifications := 0 }
    | TrySendResult.full =>
      { ret := CResult.Backoff, queue := some q, response := resp2,
        enqueued := false, notifications := 0 }
    | TrySendResult.closedErr =>
      { ret := CResult.Error, queue := some q, response := resp2,
        enqueued := false, notifications := 0 }

/-- `AzureConnection` from the source: the connection descriptor.  The five
C-string fields are modelled as their byte lists (`CStr::to_bytes`, which
excludes the terminating NUL), the two numeric overrides as naturals
(`usize` / `u64`). -/
structure AzureConnection where
  account : List Nat
  container : List Nat
  access_key : List Nat
  host : List Nat
  sas_token : List Nat
  max_retries : Nat
  retry_timeout_sec : Nat
deriving DecidableEq, Repr

/-- The 8 little-endian bytes fed by `Hasher::write_usize` /
`Hasher::write_u64` (64-bit little-endian platform, `to_ne_bytes`). -/
def le64 (n : Nat) : List Nat :=
  [n % 256, n / 256 % 256, n / 65536 % 256, n / 16777216 % 256,
   n / 4294967296 % 256, n / 1099511627776 % 256,
   n / 281474976710656 % 256, n / 72057594037927936 % 256]

/-- The byte stream `AzureConnection::get_hash` feeds into the hasher: the
raw bytes of the five string fields back to back (no separators, no length
prefixes — `Hasher::write` on the bare bytes), then the two numeric
overrides as fixed-width words. -/
def hashInput (c : AzureConnection) : List Nat :=
  c.account ++ c.container ++ c.access_key ++ c.host ++ c.sas_token
    ++ le64 c.max_retries ++ le64 c.retry_timeout_sec

/-- 64-bit left rotation on `Nat` values below `2 ^ 64`. -/
def rotl64 (x r : Nat) : Nat :=
  ((x <<< r) ||| (x >>> (64 - r))) % 2 ^ 64

/-- The four 64-bit words of the SipHash state. -/
structure SipState where
  v0 : Nat
  v1 : Nat
  v2 : Nat
  v3 : Nat

/-- One SipHash round (the compression function of `DefaultHasher`, which
is SipHash-1-3 with a zero key). -/
def sipRound (s : SipState) : SipState :=
  let a0 := (s.v0 + s.v1) % 2 ^ 64
  let a1 := Nat.xor (rotl64 s.v1 13) a0
  let a0 := rotl64 a0 32
  let a2 := (s.v2 + s.v3) % 2 ^ 64
  let a3 := Nat.xor (rotl64 s.v3 16) a2
  let b0 := (a0 + a3) % 2 ^ 64
  let b3 := Nat.xor (rotl64 a3 21) b0
  let b2 := (a2 + a1) % 2 ^ 64
  let b1 := Nat.xor (rotl64 a1 17) b2
  ⟨b0, b1, rotl64 b2 32, b3⟩

/-- Little-endian word value of a byte list. -/
def leWord (bs : List Nat) : Nat :=
  bs.foldr (fun b acc => b + 256 * acc) 0

/-- SipHash-1-3 message processing: full 8-byte blocks with one round each,
then the final block carrying the low length byte, `v2 ^= 0xff`, and three
finalization rounds, returning `v0 ^ v1 ^ v2 ^ v3`. -/
def sipBlocks (s : SipState) (bs : List Nat) (len : Nat) : Nat :=
  match bs with
  | b0 :: b1 :: b2 :: b3 :: b4 :: b5 :: b6 :: b7 :: rest =>
    let m := leWord [b0, b1, b2, b3, b4, b5, b6, b7]
    let s1 := sipRound { s with v3 := Nat.xor s.v3 m }
    sipBlocks { s1 with v0 := Nat.xor s1.v0 m } rest len
  | tail =>
    let b := ((len % 256) <<< 56 + leWord tail) % 2 ^ 64
    let s1 := sipRound { s with v3 := Nat.xor s.v3 b }
    let s2 := { s1 with v0 := Nat.xor s1.v0 b }
    let s3 := sipRound (sipRound (sipRound { s2 with v2 := Nat.xor s2.v2 255 }))
    Nat.xor (Nat.xor s3.v0 s3.v1) (Nat.xor s3.v2 s3.v3)

/-- `std::collections::hash_map::DefaultHasher`: SipHash-1-3 keyed with
`(0, 0)`, applied to a byte stream. -/
def sipHash13 (bs : List Nat) : Nat :=
  sipBlocks
    ⟨0x736f6d6570736575, 0x646f72616e646f6d, 0x6c7967656e657261, 0x7465646279746573⟩
    bs bs.length

/-- `AzureConnection::get_hash`: the `DefaultHasher` digest of the field
byte stream; this 64-bit value is the key under which `CLIENTS` caches the
constructed client. -/
def AzureConnection.get_hash (c : AzureConnection) : Nat :=
  sipHash13 (hashInput c)

/-- Modelled from the spec: the single-flight get-or-insert cache behind
`CLIENTS.try_get_with` (the `moka::future::Cache` implementation is not
part of this repository; the source only calls it).  Spec 4.1: "Concurrent
resolutions for the same hash must collapse into a single construction
(single-flight): all concurrent callers observe the same constructed value
or the same construction error; construction is not retried per-caller ...
it does not poison the cache permanently — the next resolution attempt
retries construction."  Keys, caller ids and client values are `Nat`. -/
structure CacheState where
  cached : Nat → Option Nat
  inflight : Nat → Option (List Nat)

/-- Modelled from the spec: the observable events of cache resolutions —
a cache hit, the begin of the one construction for a key, a later caller
joining that in-flight construction, and the construction finishing with a
single result delivered to every recorded waiter. -/
inductive CacheEvent where
  | hitC (k c v : Nat)
  | beginC (k c : Nat)
  | joinC (k c : Nat)
  | finishC (k : Nat) (res : Except String Nat) (waiters : List Nat)

/-- Modelled from the spec: one step of the single-flight cache.  A
construction for `k` can begin only when nothing is cached for `k` and no
construction for `k` is in flight; callers arriving while one is in flight
join its waiter list instead of constructing; a finish delivers its one
result to exactly the accumulated waiters, caches the value on success and
caches nothing on error. -/
inductive CacheStep : CacheState → CacheEvent → CacheState → Prop where
  | hit {s : CacheState} {k c v : Nat} :
      s.cached k = some v →
      CacheStep s (CacheEvent.hitC k c v) s
  | beginS {s : CacheState} {k c : Nat} :
      s.cached k = none →
      s.inflight k = none →
      CacheStep s (CacheEvent.beginC k c)
        ⟨s.cached, fun k2 => if k2 = k then some [c] else s.inflight k2⟩
  | join {s : CacheState} {k c : Nat} {ws : List Nat} :
      s.inflight k = some ws →
      CacheStep s (CacheEvent.joinC k c)
        ⟨s.cached, fun k2 => if k2 = k then some (c :: ws) else s.inflight k2⟩
  | finishOk {s : CacheState} {k v : Nat} {ws : List Nat} :
      s.inflight k = some ws →
      CacheStep s (CacheEvent.finishC k (Except.ok v) ws)
        ⟨fun k2 => if k2 = k then some v else s.cached k2,
         fun k2 => if k2 = k then none else s.inflight k2⟩
  | finishErr {s : CacheState} {k : Nat} {e : String} {ws : List Nat} :
      s.inflight k = some ws →
      CacheStep s (CacheEvent.finishC k (Except.error e) ws)
        ⟨s.cached, fun k2 => if k2 = k then none else s.inflight k2⟩

/-- Modelled from the spec: interleaved executions of the single-flight
cache, as the reflexive-transitive closure of `CacheStep` recording the
event trace. -/
inductive CacheReach : CacheState → List CacheEvent → CacheState → Prop where
  | refl {s : CacheState} : CacheReach s [] s
  | step {s s2 s3 : CacheState} {e : CacheEvent} {tr : List CacheEvent} :
      CacheStep s e s2 → CacheReach s2 tr s3 → CacheReach s (e :: tr) s3

/-- The empty cache: nothing cached, nothing in flight. -/
def initCache : CacheState := ⟨fun _ => none, fun _ => none⟩

/-- Constructions for key `k` begun in a trace. -/
def beginCount (tr : List CacheEvent) (k : Nat) : Nat :=
  tr.countP (fun e => match e with
    | CacheEvent.beginC k2 _ => decide (k2 = k)
    | _ => false)

/-- Constructions for key `k` finished in a trace. -/
def finishCount (tr : List CacheEvent) (k : Nat) : Nat :=
  tr.countP (fun e => match e with
    | CacheEvent.finishC k2 _ _ => decide (k2 = k)
    | _ => false)

/-- `1` when a construction for `k` is in flight in `s`, else `0`. -/
def inflightBit (s : CacheState) (k : Nat) : Nat :=
  match s.inflight k with
  | some _ => 1
  | none => 0

/-- A GET environment in which cache resolution succeeds and `head` reports
an empty (0-byte) object; the remaining oracles are benign. -/
def getEnvEmptyObject : GetEnv where
  resolveClient := Except.ok ()
  headSize := Except.ok 0
  get_ranges := fun _ => Except.ok []
  getChunks := Except.ok []

/-- A PUT environment in which the multipart upload opens, `write_all`
fails, and the subsequent `abort_multipart` also fails. -/
def putEnvAbortFails : PutEnv where
  resolveClient := Except.ok ()
  put := Except.ok ()
  put_multipart := Except.ok ()
  write_all := Except.error "write failed"
  flush := Except.ok ()
  shutdown := Except.ok ()
  abort_multipart := Except.error "abort failed"

/-- A PUT environment in which the multipart upload opens, write and flush
succeed, and `shutdown` fails. -/
def putEnvShutdownFails : PutEnv where
  resolveClient := Except.ok ()
  put := Except.ok ()
  put_multipart := Except.ok ()
  write_all := Except.ok ()
  flush := Except.ok ()
  shutdown := Except.error "shutdown failed"
  abort_multipart := Except.ok ()

/-- A PUT environment in which every multipart step succeeds. -/
def putEnvAllOk : PutEnv where
  resolveClient := Except.ok ()
  put := Except.ok ()
  put_multipart := Except.ok ()
  write_all := Except.ok ()
  flush := Except.ok ()
  shutdown := Except.ok ()
  abort_multipart := Except.ok ()

/-- A GET environment whose single-part stream returns three all-`Ok`
chunks of 3, 3 and 2 bytes (8 bytes total). -/
def getEnvSmallChunks : GetEnv where
  resolveClient := Except.ok ()
  headSize := Except.ok 8
  get_ranges := fun _ => Except.ok []
  getChunks := Except.ok [Except.ok [1, 2, 3], Except.ok [4, 5, 6], Except.ok [7, 8]]

/-- A GET environment whose `head` reports an object bigger than the
9000000-byte buffer used in witnesses of the multipart path. -/
def getEnvBigObject : GetEnv where
  resolveClient := Except.ok ()
  headSize := Except.ok 10000000
  get_ranges := fun _ => Except.ok []
  getChunks := Except.ok []

/-- Descriptor with account bytes "ab" and container bytes "c". -/
def connA : AzureConnection :=
  ⟨[97, 98], [99], [], [], [], 5, 7⟩

/-- Descriptor with account bytes "a" and container bytes "bc": a different
descriptor whose unseparated field concatenation coincides with `connA`. -/
def connB : AzureConnection :=
  ⟨[97], [98, 99], [], [], [], 5, 7⟩

/-- A trace of the single-flight cache in which caller 1 begins the one
construction for key 0, caller 2 joins it, and the construction finishes
successfully with value 7 delivered to both waiters. -/
def sfTrace : List CacheEvent :=
  [CacheEvent.beginC 0 1, CacheEvent.joinC 0 2,
   CacheEvent.finishC 0 (Except.ok 7) [2, 1]]

/-- Descriptor with fixed string fields and retry overrides `(5, 7)`. -/
def connC : AzureConnection :=
  ⟨[1], [2], [3], [4], [5], 5, 7⟩

/-- Same string fields as `connC`, but `max_retries` override `9`. -/
def connD : AzureConnection :=
  ⟨[1], [2], [3], [4], [5], 9, 7⟩

/-!  Theorems.  -/

/-- C1.  A GET of a 0-byte object into a buffer larger than 8 MiB takes the
multipart path, whose range computation evaluates `parts - 1` with
`parts = 0`: the `usize` subtraction underflows (panic in a debug build; in
a release build it wraps and the range loop runs away), so the worker dies
before writing any terminal status or invoking the notifier (`none` in the
model: no event trace at all).  The claim that every pulled request gets a
terminal status write and exactly one notifier invocation on every code
path therefore fails on this input. -/
theorem empty_object_multipart_get_loses_notification :
    processGet getEnvEmptyObject (part_size + 1) = none := by
  decide

/-- C7.  For a 0-byte object the claim expects `ceil(0 / part_size) = 0`
ranges covering the empty interval, and `partsCount 0 = 0` indeed holds;
but the code then evaluates `parts - 1` on `usize`, which underflows
(`partRanges 0 = none` marks the panic), so no range list is ever
produced.  The claim, which explicitly includes size 0, fails on the
code. -/
theorem empty_object_part_ranges_underflow :
    partRanges 0 = none ∧ partsCount 0 = 0 := by
  decide

/-- C3 counterexample.  When `write_all` fails with "write failed" and the
subsequent `abort_multipart` fails with "abort failed", the `?` operator on
the abort call makes `multipart_put` surface the abort error, not the
original write error; and when `shutdown` fails, no abort call is made at
all — both contradicting the claim as stated. -/
theorem multipart_put_abort_error_replaces_original :
    (multipart_put putEnvAbortFails 9000000).2 = Except.error "abort failed"
      ∧ putEnvAbortFails.write_all = Except.error "write failed"
      ∧ (multipart_put putEnvShutdownFails 9000000).1
          = [PutCall.openMultipart, PutCall.writeAll 9000000, PutCall.flush,
             PutCall.shutdown]
      ∧ (multipart_put putEnvShutdownFails 9000000).2
          = Except.error "shutdown failed" := by
  refine ⟨rfl, rfl, rfl, rfl⟩

/-- C5 counterexample.  A submission that fails synchronously (closed
queue, hard `Error`) does not leave the caller's `Response` untouched:
`perform_get` writes `result = Uninitialized` into it before consulting the
queue, so a `Response` that went in with status `Ok` comes out changed. -/
theorem submission_failure_writes_status_field :
    (perform_get (some QueueState.closed)
        { result := CResult.Ok, length := 5, error_message := some "x" }).ret
      = CResult.Error
    ∧ (perform_get (some QueueState.closed)
        { result := CResult.Ok, length := 5, error_message := some "x" }).response
      ≠ { result := CResult.Ok, length := 5, error_message := some "x" } := by
  decide

/-- C10.  A submission made while the dispatch-queue sender has not been
installed (`SQ.get()` is `None`: before `start`, or after `start` returned
`Ok` but before its spawned task ran `SQ.set`) returns `Error`
synchronously, enqueues nothing, leaves the queue handle absent, and makes
no notifier invocation for that call — the request is never processed, so
no asynchronous completion ever fires for it.  Same for `perform_put`. -/
theorem submission_without_queue_handle (resp : Response) :
    (perform_get none resp).ret = CResult.Error
    ∧ (perform_get none resp).enqueued = false
    ∧ (perform_get none resp).queue = none
    ∧ (perform_get none resp).notifications = 0
    ∧ (perform_put none resp).ret = CResult.Error
    ∧ (perform_put none resp).enqueued = false
    ∧ (perform_put none resp).queue = none
    ∧ (perform_put none resp).notifications = 0 := by
  refine ⟨rfl, rfl, rfl, rfl, rfl, rfl, rfl, rfl⟩

/-- C4.  On an engine whose queue sender is installed, `perform_get` and
`perform_put` return synchronously (the model is a total function of the
queue state) with exactly three possible outcomes: `Ok` exactly when the
request was enqueued, `Backoff` exactly when the bounded queue is full, and
`Error` exactly when the queue is closed. -/
theorem submission_synchronous_outcomes (q : QueueState) (resp : Response) :
    ((perform_get (some q) resp).ret = CResult.Ok
      ∨ (perform_get (some q) resp).ret = CResult.Backoff
      ∨ (perform_get (some q) resp).ret = CResult.Error)
    ∧ ((perform_get (some q) resp).ret = CResult.Ok
        ↔ (perform_get (some q) resp).enqueued = true)
    ∧ ((perform_get (some q) resp).ret = CResult.Backoff
        ↔ ∃ n, q = QueueState.active n ∧ queue_capacity ≤ n)
    ∧ ((perform_get (some q) resp).ret = CResult.Error ↔ q = QueueState.closed)
    ∧ (perform_put (some q) resp).ret = (perform_get (some q) resp).ret
    ∧ ((perform_put (some q) resp).enqueued = (perform_get (some q) resp).enqueued) := by
  cases q with
  | closed =>
    simp [perform_get, perform_put, try_send]
  | active n =>
    by_cases h : n < queue_capacity
    · simp [perform_get, perform_put, try_send, h]
      try omega
    · simp [perform_get, perform_put, try_send, h]
      try omega

/-- C5 amended.  A submission whose synchronous outcome is not `Ok`
(`Backoff` or `Error`) leaves the `Response`'s length and error-message
fields untouched and writes no terminal status; the only field it writes
is the status, which it resets to `Uninitialized`.  Same for
`perform_put`.  (The claim as stated — no field written at all — fails:
see the counterexample.) -/
theorem submission_failure_frame (sq : Option QueueState) (resp : Response) :
    ((perform_get sq resp).ret ≠ CResult.Ok →
      (perform_get sq resp).response.length = resp.length
      ∧ (perform_get sq resp).response.error_message = resp.error_message
      ∧ (perform_get sq resp).response.result = CResult.Uninitialized
      ∧ (perform_get sq resp).enqueued = false)
    ∧ ((perform_put sq resp).ret ≠ CResult.Ok →
      (perform_put sq resp).response.length = resp.length
      ∧ (perform_put sq resp).response.error_message = resp.error_message
      ∧ (perform_put sq resp).response.result = CResult.Uninitialized
      ∧ (perform_put sq resp).enqueued = false) := by
  match sq with
  | none => exact ⟨fun _ => ⟨rfl, rfl, rfl, rfl⟩, fun _ => ⟨rfl, rfl, rfl, rfl⟩⟩
  | some (QueueState.active n) =>
    by_cases h : n < queue_capacity
    · constructor
      · intro hret
        exact absurd (by simp [perform_get, try_send, h]) hret
      · intro hret
        exact absurd (by simp [perform_put, try_send, h]) hret
    · constructor
      · intro _
        simp [perform_get, try_send, h]
      · intro _
        simp [perform_put, try_send, h]
  | some QueueState.closed =>
    exact ⟨fun _ => ⟨rfl, rfl, rfl, rfl⟩, fun _ => ⟨rfl, rfl, rfl, rfl⟩⟩

/-- C5 amended, witness: a concrete failed submission (closed queue) on a
concrete `Response` keeps length `5` and message `"x"` intact. -/
theorem submission_failure_frame_witness :
    (perform_get (some QueueState.closed)
        { result := CResult.Ok, length := 5, error_message := some "x" }).response.length = 5
    ∧ (perform_get (some QueueState.closed)
        { result := CResult.Ok, length := 5, error_message := some "x" }).response.error_message
      = some "x" := by
  have h := (submission_failure_frame (some QueueState.closed)
    { result := CResult.Ok, length := 5, error_message := some "x" }).1 (by decide)
  exact ⟨h.1, h.2.1⟩

/-- C6.  Once the client is resolved, a PUT with source length strictly
below 8 MiB performs exactly one single `put` call carrying the full
buffer and nothing else; at or above the threshold it opens a multipart
upload first, and on the happy path its provider calls are exactly open,
`write_all` of the whole buffer, `flush`, `shutdown`.  The branch taken
depends only on `len < 8 MiB`. -/
theorem put_strategy_threshold (env : PutEnv) (len : Nat)
    (hres : env.resolveClient = Except.ok ()) :
    (len < part_size → (processPut env len).1 = [PutCall.put len])
    ∧ (part_size ≤ len →
        (processPut env len).1.head? = some PutCall.openMultipart
        ∧ (env.put_multipart = Except.ok () → env.write_all = Except.ok () →
            env.flush = Except.ok () →
            (processPut env len).1
              = [PutCall.openMultipart, PutCall.writeAll len, PutCall.flush,
                 PutCall.shutdown])) := by
  constructor
  · intro hlt
    unfold processPut
    rw [hres]
    simp only [hlt, if_pos]
    match hput : env.put with
    | Except.ok _ => simp
    | Except.error e => simp
  · intro hge
    have hnlt : ¬ len < part_size := by omega
    unfold processPut
    rw [hres]
    simp only [hnlt, if_neg, if_false]
    constructor
    · unfold multipart_put
      match hmp : env.put_multipart with
      | Except.error e => simp
      | Except.ok _ =>
        match hw : env.write_all with
        | Except.error e =>
          match hab : env.abort_multipart with
          | Except.ok _ => simp
          | Except.error ea => simp
        | Except.ok _ =>
          match hf : env.flush with
          | Except.error e =>
            match hab : env.abort_multipart with
            | Except.ok _ => simp
            | Except.error ea => simp
          | Except.ok _ =>
            match hs : env.shutdown with
            | Except.error e => simp
            | Except.ok _ => simp
    · intro hmp hw hf
      unfold multipart_put
      rw [hmp, hw, hf]
      match hs : env.shutdown with
      | Except.error e => simp
      | Except.ok _ => simp

/-- C6 witness: with an all-`Ok` provider, a 5-byte PUT issues exactly the
single `put` call of length 5, and a `part_size`-byte PUT issues exactly
the four multipart calls. -/
theorem put_strategy_threshold_witness :
    (processPut putEnvAllOk 5).1 = [PutCall.put 5]
    ∧ (processPut putEnvAllOk part_size).1
      = [PutCall.openMultipart, PutCall.writeAll part_size, PutCall.flush,
         PutCall.shutdown] := by
  constructor
  · exact (put_strategy_threshold putEnvAllOk 5 rfl).1 (by decide)
  · exact ((put_strategy_threshold putEnvAllOk part_size rfl).2 (le_refl _)).2 rfl rfl rfl

/-- C3 amended.  In a multipart PUT, a `write_all` or `flush` failure always
triggers an `abort_multipart` call before an error is surfaced; when the
abort succeeds the original error is surfaced, but when the abort itself
fails the abort error replaces the original one (the source returns the
abort call through `?`).  A `shutdown` failure is surfaced directly and
leaves the upload un-aborted (no abort call is made). -/
theorem multipart_put_failure_cleanup (env : PutEnv) (len : Nat) (e : String)
    (hopen : env.put_multipart = Except.ok ()) :
    ((env.write_all = Except.error e
        ∨ (env.write_all = Except.ok () ∧ env.flush = Except.error e)) →
      PutCall.abort ∈ (multipart_put env len).1
      ∧ (multipart_put env len).2
        = (match env.abort_multipart with
           | Except.ok _ => Except.error e
           | Except.error ea => Except.error ea))
    ∧ (env.write_all = Except.ok () → env.flush = Except.ok () →
        env.shutdown = Except.error e →
      PutCall.abort ∉ (multipart_put env len).1
      ∧ (multipart_put env len).2 = Except.error e) := by
  constructor
  · intro hfail
    unfold multipart_put
    rw [hopen]
    cases hfail with
    | inl hw =>
      rw [hw]
      match hab : env.abort_multipart with
      | Except.ok _ => simp
      | Except.error ea => simp
    | inr hwf =>
      rw [hwf.1, hwf.2]
      match hab : env.abort_multipart with
      | Except.ok _ => simp
      | Except.error ea => simp
  · intro hw hf hs
    unfold multipart_put
    rw [hopen, hw, hf, hs]
    simp

/-- C3 amended, witness: with the concrete failing-abort environment the
surfaced error is the abort error, and an abort call was made. -/
theorem multipart_put_failure_cleanup_witness :
    PutCall.abort ∈ (multipart_put putEnvAbortFails 9000000).1
    ∧ (multipart_put putEnvAbortFails 9000000).2 = Except.error "abort failed" := by
  have h := (multipart_put_failure_cleanup putEnvAbortFails 9000000 "write failed" rfl).1
    (Or.inl rfl)
  exact ⟨h.1, h.2⟩

/-- The fixed-width little-endian encoding of a 64-bit value is injective
below `2 ^ 64`. -/
theorem le64_inj (a b : Nat) (ha : a < 2 ^ 64) (hb : b < 2 ^ 64)
    (h : le64 a = le64 b) : a = b := by
  simp only [le64, List.cons.injEq, and_true] at h
  have hp : (2 : Nat) ^ 64 = 18446744073709551616 := by norm_num
  rw [hp] at ha hb
  omega

/-- C8 counterexample.  Two distinct descriptors — account "ab", container
"c" versus account "a", container "bc" — produce the identical hasher
input (the raw field bytes are concatenated with no separators), hence the
identical `get_hash` cache key: they share one cache entry although they
differ in every one of account and container.  The claim that any
field-wise difference yields distinct cache entries is false. -/
theorem descriptor_hash_collision :
    connA ≠ connB
    ∧ connA.account ≠ connB.account
    ∧ hashInput connA = hashInput connB
    ∧ AzureConnection.get_hash connA = AzureConnection.get_hash connB := by
  refine ⟨by decide, by decide, by decide, ?_⟩
  exact congrArg sipHash13 (by decide)

/-- C8 amended.  The cache key is the 64-bit `DefaultHasher` digest of the
concatenation of every descriptor field (five raw byte strings, then the
two numeric retry overrides as fixed-width words), so every field feeds
the key: with equal string fields, the hasher inputs coincide exactly when
both numeric overrides coincide — in particular descriptors differing only
in a retry override reach the hasher with distinct inputs.  Equal hasher
inputs always map to the same cache entry; distinct descriptors, however,
are not guaranteed distinct entries (see the counterexample: unseparated
string fields can collide). -/
theorem descriptor_hash_combines_fields (c1 c2 : AzureConnection)
    (ha : c1.account = c2.account) (hc : c1.container = c2.container)
    (hk : c1.access_key = c2.access_key) (hh : c1.host = c2.host)
    (hs : c1.sas_token = c2.sas_token)
    (h1 : c1.max_retries < 2 ^ 64) (h2 : c2.max_retries < 2 ^ 64)
    (h3 : c1.retry_timeout_sec < 2 ^ 64) (h4 : c2.retry_timeout_sec < 2 ^ 64) :
    (hashInput c1 = hashInput c2
      ↔ (c1.max_retries = c2.max_retries
          ∧ c1.retry_timeout_sec = c2.retry_timeout_sec))
    ∧ (hashInput c1 = hashInput c2
        → AzureConnection.get_hash c1 = AzureConnection.get_hash c2) := by
  constructor
  · constructor
    · intro h
      unfold hashInput at h
      rw [ha, hc, hk, hh, hs] at h
      simp only [List.append_assoc] at h
      have h5 := List.append_cancel_left h
      have h6 := List.append_cancel_left h5
      have h7 := List.append_cancel_left h6
      have h8 := List.append_cancel_left h7
      have h9 := List.append_cancel_left h8
      have hlen : (le64 c1.max_retries).length = (le64 c2.max_retries).length := by
        simp [le64]
      have h10 := List.append_inj h9 hlen
      exact ⟨le64_inj _ _ h1 h2 h10.1, le64_inj _ _ h3 h4 h10.2⟩
    · intro h
      unfold hashInput
      rw [ha, hc, hk, hh, hs, h.1, h.2]
  · intro h
    exact congrArg sipHash13 h

/-- C8 amended, witness: the concrete descriptors `connC` and `connD`
share all string fields and differ only in `max_retries` (5 vs 9); the
theorem instantiates to show their hasher inputs coincide iff `5 = 9`,
i.e. they are distinct. -/
theorem descriptor_hash_combines_fields_witness :
    (hashInput connC = hashInput connD ↔ ((5 : Nat) = 9 ∧ (7 : Nat) = 7))
    ∧ (hashInput connC = hashInput connD
        → AzureConnection.get_hash connC = AzureConnection.get_hash connD) := by
  exact descriptor_hash_combines_fields connC connD rfl rfl rfl rfl rfl
    (by decide) (by decide) (by decide) (by decide)

/-- The chunk-copy loop never invokes the notifier itself (the arm in
`start` appends the single notification after it). -/
theorem copyChunks_notifies (cs : List (List Nat)) (b r : Nat) :
    notifies (copyChunks cs b r) = 0 := by
  induction cs generalizing r with
  | nil => rfl
  | cons c rest ih =>
    unfold copyChunks
    by_cases h : r + c.length > b
    · simp [h, notifies]
    · simpa [h, notifies, List.countP_cons] using ih (r + c.length)

/-- Every buffer write performed by the chunk-copy loop ends at or before
the buffer's declared length. -/
theorem copyChunks_writes_bounded (cs : List (List Nat)) (b : Nat) :
    ∀ r off data, (off, data) ∈ writes (copyChunks cs b r) →
      off + data.length ≤ b := by
  induction cs with
  | nil =>
    intro r off data hmem
    simp [copyChunks, writes] at hmem
  | cons c rest ih =>
    intro r off data hmem
    unfold copyChunks at hmem
    by_cases h : r + c.length > b
    · simp [h, writes] at hmem
    · simp only [h, if_neg, if_false, writes, List.filterMap_cons] at hmem
      simp only [writes] at ih
      rcases List.mem_cons.mp hmem with heq | htail
      · cases heq
        omega
      · exact ih (r + c.length) off data htail

/-- When the accumulated chunks overflow the buffer, the chunk-copy loop
writes exactly the capacity-error response. -/
theorem copyChunks_overflow_resp (cs : List (List Nat)) (b : Nat) :
    ∀ r, r ≤ b → b < r + chunksLen cs →
      responses (copyChunks cs b r)
        = [Response._error "Supplied buffer was too small"] := by
  induction cs with
  | nil =>
    intro r hle hlt
    simp [chunksLen] at hlt
    omega
  | cons c rest ih =>
    intro r hle hlt
    unfold copyChunks
    by_cases h : r + c.length > b
    · simp [h, responses]
    · have hlt2 : b < r + c.length + chunksLen rest := by
        simp [chunksLen] at hlt ⊢
        omega
      simpa [h, responses, List.filterMap_cons] using
        ih (r + c.length) (by omega) hlt2

/-- The writes of the chunk-copy loop are the sequential writes of some
prefix of the chunk list. -/
theorem copyChunks_writes_take (cs : List (List Nat)) (b : Nat) :
    ∀ r, ∃ k, writes (copyChunks cs b r) = seqWrites (cs.take k) r := by
  induction cs with
  | nil =>
    intro r
    exact ⟨0, by simp [copyChunks, writes, seqWrites]⟩
  | cons c rest ih =>
    intro r
    unfold copyChunks
    by_cases h : r + c.length > b
    · exact ⟨0, by simp [h, writes, seqWrites]⟩
    · obtain ⟨k, hk⟩ := ih (r + c.length)
      refine ⟨k + 1, ?_⟩
      simp only [h, if_neg, if_false, writes, List.filterMap_cons, List.take, seqWrites]
      simp only [writes] at hk
      rw [hk]

/-- `find(|result| result.is_err())` over an all-`Ok` chunk stream finds
nothing. -/
theorem firstChunkError_map_ok (cs : List (List Nat)) :
    firstChunkError (cs.map Except.ok) = none := by
  induction cs with
  | nil => rfl
  | cons c rest ih =>
    simp only [firstChunkError, List.map_cons, List.findSome?] at ih ⊢
    exact ih

/-- Extracting the payloads of an all-`Ok` chunk stream recovers it. -/
theorem okChunks_map_ok (cs : List (List Nat)) :
    okChunks (cs.map Except.ok) = cs := by
  induction cs with
  | nil => rfl
  | cons c rest ih => simpa [okChunks, List.filterMap_cons] using ih

/-- `Except.ok` is injective on chunk lists. -/
theorem map_ok_inj {cs cs2 : List (List Nat)}
    (h : cs.map (Except.ok : List Nat → Except String (List Nat))
       = cs2.map Except.ok) : cs = cs2 := by
  induction cs generalizing cs2 with
  | nil => cases cs2 <;> simp_all
  | cons c rest ih =>
    cases cs2 with
    | nil => simp_all
    | cons c2 rest2 =>
      simp only [List.map_cons, List.cons.injEq, Except.ok.injEq] at h
      exact by rw [h.1, ih h.2]

/-- C2.  A GET whose object is larger than the destination buffer always
terminates with an `Error` response and never writes at or past the
buffer's declared length: on the multipart path (buffer above 8 MiB, head
size above the buffer) the size check precedes any write, so nothing at
all is written; on the single-part path only a prefix of the received
chunks, each fully fitting, is written before the capacity error. -/
theorem get_too_small_buffer_safe (env : GetEnv) (bufLen : Nat)
    (hres : env.resolveClient = Except.ok ())
    (hbig : (part_size < bufLen ∧ ∃ n, env.headSize = Except.ok n ∧ bufLen < n)
          ∨ (bufLen ≤ part_size
              ∧ ∃ cs, env.getChunks = Except.ok (cs.map Except.ok)
              ∧ bufLen < chunksLen cs)) :
    ∃ tr, processGet env bufLen = some tr
      ∧ (∃ msg, responses tr
          = [{ result := CResult.Error, length := 0, error_message := some msg }])
      ∧ (∀ off data, (off, data) ∈ writes tr → off + data.length ≤ bufLen)
      ∧ (part_size < bufLen → writes tr = [])
      ∧ (∀ cs : List (List Nat),
          env.getChunks = Except.ok (cs.map Except.ok) → bufLen ≤ part_size →
          ∃ k, writes tr = seqWrites (cs.take k) 0) := by
  rcases hbig with ⟨hp, n, hn, hlt⟩ | ⟨hle, cs, hcs, hlen⟩
  · refine ⟨[Event.setResponse (Response.from_error "Supplied buffer was too small"),
      Event.notify], ?_, ?_, ?_, ?_, ?_⟩
    · simp [processGet, hres, hp, multipart_get, hn, hlt]
    · exact ⟨"Supplied buffer was too small", rfl⟩
    · intro off data hmem
      simp [writes] at hmem
    · intro _
      rfl
    · intro cs2 _ hle2
      omega
  · have hnp : ¬ bufLen > part_size := by omega
    refine ⟨copyChunks cs bufLen 0 ++ [Event.notify], ?_, ?_, ?_, ?_, ?_⟩
    · simp [processGet, hres, hnp, hcs, firstChunkError_map_ok, okChunks_map_ok]
    · refine ⟨"Supplied buffer was too small", ?_⟩
      have h0 := copyChunks_overflow_resp cs bufLen 0 (Nat.zero_le _) (by omega)
      simp only [responses, List.filterMap_append] at *
      simp [h0, Response._error]
    · intro off data hmem
      simp only [writes, List.filterMap_append] at hmem
      rw [List.mem_append] at hmem
      rcases hmem with hmem | hmem
      · exact copyChunks_writes_bounded cs bufLen 0 off data hmem
      · simp at hmem
    · intro hp2
      omega
    · intro cs2 hcs2 _
      have hcc : cs = cs2 := by
        rw [hcs] at hcs2
        exact map_ok_inj (Except.ok.inj hcs2)
      obtain ⟨k, hk⟩ := copyChunks_writes_take cs bufLen 0
      refine ⟨k, ?_⟩
      rw [← hcc]
      simp only [writes, List.filterMap_append] at *
      simp [hk]

/-- C2 witness: a GET into a 9000000-byte buffer (above the 8 MiB part
size) of an object whose head size is 10000000 bytes terminates with the
capacity error without writing a single byte. -/
theorem get_too_small_buffer_safe_witness :
    ∃ tr, processGet getEnvBigObject 9000000 = some tr
      ∧ (∃ msg, responses tr
          = [{ result := CResult.Error, length := 0, error_message := some msg }])
      ∧ (∀ off data, (off, data) ∈ writes tr → off + data.length ≤ 9000000)
      ∧ (part_size < 9000000 → writes tr = [])
      ∧ (∀ cs : List (List Nat),
          getEnvBigObject.getChunks = Except.ok (cs.map Except.ok) →
          9000000 ≤ part_size →
          ∃ k, writes tr = seqWrites (cs.take k) 0) :=
  get_too_small_buffer_safe getEnvBigObject 9000000 rfl
    (Or.inl ⟨by decide, 10000000, rfl, by decide⟩)

/-- A cache step is determined by its source state and its event. -/
theorem cacheStep_deterministic {s s2 s3 : CacheState} {e : CacheEvent}
    (h1 : CacheStep s e s2) (h2 : CacheStep s e s3) : s2 = s3 := by
  cases h1 with
  | hit h =>
    cases h2 with
    | hit hx => rfl
  | beginS ha hb =>
    cases h2 with
    | beginS hxa hxb => rfl
  | join h =>
    cases h2 with
    | join hx =>
      rw [h] at hx
      injection hx with hq
      rw [hq]
  | finishOk h =>
    cases h2 with
    | finishOk hx => rfl
  | finishErr h =>
    cases h2 with
    | finishErr hx => rfl

/-- A cache trace determines its final state. -/
theorem cacheReach_deterministic {s0 s s3 : CacheState} {tr : List CacheEvent}
    (h1 : CacheReach s0 tr s) (h2 : CacheReach s0 tr s3) : s = s3 := by
  induction h1 generalizing s3 with
  | refl =>
    cases h2 with
    | refl => rfl
  | step hstep hrest ih =>
    cases h2 with
    | step hxstep hxrest =>
      have hdet := cacheStep_deterministic hstep hxstep
      rw [← hdet] at hxrest
      exact ih hxrest

/-- A reachable trace splits at any point through an intermediate state. -/
theorem cacheReach_append {s0 s : CacheState} {t1 t2 : List CacheEvent}
    (h : CacheReach s0 (t1 ++ t2) s) :
    ∃ s1, CacheReach s0 t1 s1 ∧ CacheReach s1 t2 s := by
  induction t1 generalizing s0 with
  | nil => exact ⟨s0, CacheReach.refl, h⟩
  | cons e rest ih =>
    cases h with
    | step hstep hrest =>
      obtain ⟨s1, hr1, hr2⟩ := ih hrest
      exact ⟨s1, CacheReach.step hstep hr1, hr2⟩

/-- One cache step changes a key's in-flight indicator by exactly its
begun-minus-finished construction count. -/
theorem cacheStep_counts {s s2 : CacheState} {e : CacheEvent}
    (hstep : CacheStep s e s2) (k : Nat) :
    beginCount [e] k + inflightBit s k
      = finishCount [e] k + inflightBit s2 k := by
  cases hstep with
  | @hit k2 c v h =>
    simp [beginCount, finishCount]
  | @beginS k2 c ha hb =>
    by_cases hkk : k = k2
    · subst hkk
      simp [beginCount, finishCount, inflightBit, hb]
    · simp [beginCount, finishCount, inflightBit, hkk, Ne.symm hkk]
  | @join k2 c ws h =>
    by_cases hkk : k = k2
    · subst hkk
      simp [beginCount, finishCount, inflightBit, h]
    · simp [beginCount, finishCount, inflightBit, hkk]
  | @finishOk k2 v ws h =>
    by_cases hkk : k = k2
    · subst hkk
      simp [beginCount, finishCount, inflightBit, h]
    · simp [beginCount, finishCount, inflightBit, hkk, Ne.symm hkk]
  | @finishErr k2 e2 ws h =>
    by_cases hkk : k = k2
    · subst hkk
      simp [beginCount, finishCount, inflightBit, h]
    · simp [beginCount, finishCount, inflightBit, hkk, Ne.symm hkk]

/-- Construction-count invariant: along any trace, begun minus finished
constructions for a key equals the change of its in-flight indicator. -/
theorem cacheReach_counts {s0 s3 : CacheState} {tr : List CacheEvent}
    (h : CacheReach s0 tr s3) :
    ∀ k, beginCount tr k + inflightBit s0 k
      = finishCount tr k + inflightBit s3 k := by
  induction h with
  | refl => intro k; rfl
  | step hstep hrest ih =>
    intro k
    have hstepbit := cacheStep_counts hstep k
    have hc : ∀ e tr2, beginCount (e :: tr2) k = beginCount [e] k + beginCount tr2 k := by
      intro e tr2
      simp [beginCount, List.countP_cons]
      omega
    have hf : ∀ e tr2, finishCount (e :: tr2) k = finishCount [e] k + finishCount tr2 k := by
      intro e tr2
      simp [finishCount, List.countP_cons]
      omega
    rw [hc, hf]
    have := ih k
    omega

/-- The in-flight indicator is at most one. -/
theorem inflightBit_le_one (s : CacheState) (k : Nat) : inflightBit s k ≤ 1 := by
  unfold inflightBit
  cases s.inflight k <;> simp

/-- C9.  Single-flight connection cache (modelled from the spec, the cache
implementation being the external `moka` crate): (1) along every prefix of
every reachable trace, at most one construction per key is unfinished —
concurrent resolutions collapse into a single in-flight construction;
(2) a construction finishing with a single result `res` delivers it to
exactly the waiter set accumulated for that key, so every concurrent
caller observes the same constructed value or the same error;
(3) a failed construction caches nothing; and (4) after a failure the
key is immediately constructible anew by the next resolution. -/
theorem single_flight_cache (tr : List CacheEvent) (s : CacheState)
    (h : CacheReach initCache tr s) :
    (∀ t1 t2 k, tr = t1 ++ t2 → beginCount t1 k ≤ finishCount t1 k + 1)
    ∧ (∀ t1 t2 k res ws, tr = t1 ++ CacheEvent.finishC k res ws :: t2 →
        ∀ s1, CacheReach initCache t1 s1 → s1.inflight k = some ws)
    ∧ (∀ s1 s2 : CacheState, ∀ k e ws,
        CacheStep s1 (CacheEvent.finishC k (Except.error e) ws) s2 →
        s2.cached = s1.cached)
    ∧ (∀ k c, s.cached k = none → s.inflight k = none →
        CacheStep s (CacheEvent.beginC k c)
          ⟨s.cached, fun k2 => if k2 = k then some [c] else s.inflight k2⟩) := by
  refine ⟨?_, ?_, ?_, ?_⟩
  · intro t1 t2 k htr
    subst htr
    obtain ⟨s1, hr1, _⟩ := cacheReach_append h
    have hc := cacheReach_counts hr1 k
    have hb0 : inflightBit initCache k = 0 := rfl
    have hb1 := inflightBit_le_one s1 k
    omega
  · intro t1 t2 k res ws htr s1 hr1
    subst htr
    obtain ⟨sa, hra, hrb⟩ := cacheReach_append h
    cases hrb with
    | step hstep hrest =>
      rw [cacheReach_deterministic hr1 hra]
      cases hstep with
      | finishOk hx => exact hx
      | finishErr hx => exact hx
  · intro s1 s2 k e ws hstep
    cases hstep with
    | finishErr hx => rfl
  · intro k c hcached hflight
    exact CacheStep.beginS hcached hflight

/-- C9 witness: the concrete two-caller trace `sfTrace` (caller 1 begins
the construction for key 0, caller 2 joins, one finish delivers value 7 to
both) is reachable and never has two unfinished constructions. -/
theorem single_flight_cache_witness :
    beginCount sfTrace 0 ≤ finishCount sfTrace 0 + 1 :=
  (single_flight_cache sfTrace _
    (CacheReach.step (CacheStep.beginS rfl rfl)
      (CacheReach.step (CacheStep.join rfl)
        (CacheReach.step (CacheStep.finishOk rfl) CacheReach.refl)))).1
    sfTrace [] 0 (List.append_nil sfTrace).symm

/-- The multipart copy loop emits no response writes. -/
theorem mpCopy_responses (parts : List (List Nat)) (b : Nat) :
    ∀ a, responses (mpCopy parts b a).1 = [] := by
  induction parts with
  | nil => intro a; rfl
  | cons p rest ih =>
    intro a
    unfold mpCopy
    by_cases h : a + p.length ≤ b
    · simpa [h, responses, List.filterMap_cons] using ih (a + p.length)
    · simp [h, responses]

/-- The multipart copy loop emits no notifications. -/
theorem mpCopy_notifies (parts : List (List Nat)) (b : Nat) :
    ∀ a, notifies (mpCopy parts b a).1 = 0 := by
  induction parts with
  | nil => intro a; rfl
  | cons p rest ih =>
    intro a
    unfold mpCopy
    by_cases h : a + p.length ≤ b
    · simpa [h, notifies, List.countP_cons] using ih (a + p.length)
    · simp [h, notifies]

/-- The chunk-copy loop writes exactly one response, and it is terminal
(`Ok` or `Error`). -/
theorem copyChunks_responses_single (cs : List (List Nat)) (b : Nat) :
    ∀ a, ∃ r, responses (copyChunks cs b a) = [r]
      ∧ (r.result = CResult.Ok ∨ r.result = CResult.Error) := by
  induction cs with
  | nil =>
    intro a
    exact ⟨Response.success a, rfl, Or.inl rfl⟩
  | cons c rest ih =>
    intro a
    unfold copyChunks
    by_cases h : a + c.length > b
    · exact ⟨Response._error "Supplied buffer was too small", by simp [h, responses],
        Or.inr rfl⟩
    · obtain ⟨r, hr, hterm⟩ := ih (a + c.length)
      refine ⟨r, ?_, hterm⟩
      simpa [h, responses, List.filterMap_cons] using hr

/-- Notification counting distributes over trace concatenation. -/
theorem notifies_append (a b : List Event) :
    notifies (a ++ b) = notifies a + notifies b := by
  simp [notifies, List.countP_append]

/-- Response extraction distributes over trace concatenation. -/
theorem responses_append (a b : List Event) :
    responses (a ++ b) = responses a ++ responses b := by
  simp [responses, List.filterMap_append]

/-- Whatever `multipart_get` returns, the events it reports are buffer
writes only: no responses, no notifications (those are appended by the
dispatch arm). -/
theorem multipart_get_events (env : GetEnv) (bufLen : Nat) (evs : List Event)
    (res : Except String Nat) (h : multipart_get env bufLen = some (evs, res)) :
    responses evs = [] ∧ notifies evs = 0 := by
  unfold multipart_get at h
  match hh : env.headSize with
  | Except.error e =>
    simp only [hh, Option.some.injEq, Prod.mk.injEq] at h
    rw [← h.1]
    exact ⟨rfl, rfl⟩
  | Except.ok size =>
    simp only [hh] at h
    by_cases hsz : size > bufLen
    · simp only [hsz, if_pos, if_true, Option.some.injEq, Prod.mk.injEq] at h
      rw [← h.1]
      exact ⟨rfl, rfl⟩
    · simp only [hsz, if_neg, if_false] at h
      match hpr : partRanges size with
      | none => simp [hpr] at h
      | some ranges =>
        simp only [hpr] at h
        match hgr : env.get_ranges ranges with
        | Except.error e =>
          simp only [hgr, Option.some.injEq, Prod.mk.injEq] at h
          rw [← h.1]
          exact ⟨rfl, rfl⟩
        | Except.ok parts =>
          simp only [hgr, Option.some.injEq] at h
          have h1 : evs = (mpCopy parts bufLen 0).1 := by rw [h]
          rw [h1]
          exact ⟨mpCopy_responses parts bufLen 0, mpCopy_notifies parts bufLen 0⟩

/-- Exactly-once completion on every non-panicking GET path: whenever the
worker's processing of a `Get` request is defined (every path except the
size-zero multipart underflow of C1/C7), its trace invokes the notifier
exactly once and writes exactly one response, which is terminal. -/
theorem processGet_notification_exactly_once (env : GetEnv) (bufLen : Nat)
    (tr : List Event) (h : processGet env bufLen = some tr) :
    notifies tr = 1
    ∧ ∃ r, responses tr = [r]
      ∧ (r.result = CResult.Ok ∨ r.result = CResult.Error) := by
  unfold processGet at h
  match hres : env.resolveClient with
  | Except.error e =>
    simp only [hres, Option.some.injEq] at h
    rw [← h]
    exact ⟨rfl, Response.from_error e, rfl, Or.inr rfl⟩
  | Except.ok u =>
    simp only [hres] at h
    by_cases hbuf : bufLen > part_size
    · simp only [hbuf, if_pos, if_true] at h
      match hmp : multipart_get env bufLen with
      | none => simp [hmp] at h
      | some (evs, Except.ok accum) =>
        simp only [hmp, Option.some.injEq] at h
        obtain ⟨hre, hno⟩ := multipart_get_events env bufLen evs (Except.ok accum) hmp
        rw [← h]
        constructor
        · rw [notifies_append, hno]
          rfl
        · refine ⟨Response.success accum, ?_, Or.inl rfl⟩
          rw [responses_append, hre]
          rfl
      | some (evs, Except.error e) =>
        simp only [hmp, Option.some.injEq] at h
        obtain ⟨hre, hno⟩ := multipart_get_events env bufLen evs (Except.error e) hmp
        rw [← h]
        constructor
        · rw [notifies_append, hno]
          rfl
        · refine ⟨Response.from_error e, ?_, Or.inr rfl⟩
          rw [responses_append, hre]
          rfl
    · simp only [hbuf, if_neg, if_false] at h
      match hgc : env.getChunks with
      | Except.error e =>
        simp only [hgc, Option.some.injEq] at h
        rw [← h]
        exact ⟨rfl, Response.from_error e, rfl, Or.inr rfl⟩
      | Except.ok chunks =>
        simp only [hgc] at h
        match hfe : firstChunkError chunks with
        | some e =>
          simp only [hfe, Option.some.injEq] at h
          rw [← h]
          exact ⟨rfl, Response.from_error e, rfl, Or.inr rfl⟩
        | none =>
          simp only [hfe, Option.some.injEq] at h
          obtain ⟨r, hr, hterm⟩ :=
            copyChunks_responses_single (okChunks chunks) bufLen 0
          rw [← h]
          constructor
          · rw [notifies_append, copyChunks_notifies (okChunks chunks) bufLen 0]
            rfl
          · refine ⟨r, ?_, hterm⟩
            rw [responses_append, hr]
            rfl

/-- Exactly-once completion on every PUT path: the worker's processing of a
`Put` request always invokes the notifier exactly once and writes exactly
one terminal response. -/
theorem processPut_notification_exactly_once (env : PutEnv) (len : Nat) :
    notifies (processPut env len).2 = 1
    ∧ ∃ r, responses (processPut env len).2 = [r]
      ∧ (r.result = CResult.Ok ∨ r.result = CResult.Error) := by
  unfold processPut
  match hres : env.resolveClient with
  | Except.error e => exact ⟨rfl, Response.from_error e, rfl, Or.inr rfl⟩
  | Except.ok u =>
    by_cases hlen : len < part_size
    · simp only [hlen, if_pos, if_true]
      match hput : env.put with
      | Except.ok _ => exact ⟨rfl, Response.success len, rfl, Or.inl rfl⟩
      | Except.error e => exact ⟨rfl, Response.from_error e, rfl, Or.inr rfl⟩
    · simp only [hlen, if_neg, if_false]
      match hmp : multipart_put env len with
      | (cs, Except.ok _) => exact ⟨rfl, Response.success len, rfl, Or.inl rfl⟩
      | (cs, Except.error e) => exact ⟨rfl, Response.from_error e, rfl, Or.inr rfl⟩

/-- Buffer-write extraction distributes over trace concatenation. -/
theorem writes_append (a b : List Event) :
    writes (a ++ b) = writes a ++ writes b := by
  simp [writes, List.filterMap_append]

/-- For every nonzero object size the multipart range computation is
defined and produces exactly `ceil(size / part_size)` contiguous ascending
ranges: the i-th range starts at `i * part_size` and ends at
`min ((i + 1) * part_size) size` — full `part_size` ranges followed by the
final remainder range, covering `[0, size)` in ascending order. -/
theorem partRanges_spec (size : Nat) (h1 : 1 ≤ size) :
    partsCount size = (size + part_size - 1) / part_size
    ∧ partRanges size
      = some ((List.range (partsCount size)).map
          (fun i => (i * part_size, min ((i + 1) * part_size) size))) := by
  have hps : part_size = 8388608 := by norm_num [part_size]
  have hpc : partsCount size = (size + part_size - 1) / part_size := by
    unfold partsCount
    rw [hps]
    by_cases hr : size % 8388608 = 0
    · simp [hr]
      omega
    · simp [hr]
      omega
  have hparts1 : 1 ≤ partsCount size := by
    rw [hpc, hps]
    omega
  have hlow : (partsCount size - 1) * part_size < size := by
    rw [hpc, hps]
    omega
  have hhigh : size ≤ partsCount size * part_size := by
    rw [hpc, hps]
    omega
  refine ⟨hpc, ?_⟩
  unfold partRanges
  have hne : ¬ (partsCount size = 0) := by omega
  simp only [hne, if_neg, if_false]
  have hsplit : List.range (partsCount size)
      = List.range (partsCount size - 1) ++ [partsCount size - 1] := by
    conv_lhs => rw [show partsCount size = (partsCount size - 1) + 1 by omega]
    rw [List.range_succ]
  have hmain : List.map (fun i => (i * part_size, (i + 1) * part_size))
        (List.range (partsCount size - 1))
      = List.map (fun i => (i * part_size, min ((i + 1) * part_size) size))
        (List.range (partsCount size - 1)) := by
    apply List.map_congr_left
    intro i hi
    rw [List.mem_range] at hi
    have hfit : (i + 1) * part_size ≤ size := by
      have hle : (i + 1) ≤ partsCount size - 1 := by omega
      have hmul : (i + 1) * part_size ≤ (partsCount size - 1) * part_size :=
        Nat.mul_le_mul_right _ hle
      omega
    simp [Nat.min_eq_left hfit]
  have hlast : ([((partsCount size - 1) * part_size, size)] : List (Nat × Nat))
      = List.map (fun i => (i * part_size, min ((i + 1) * part_size) size))
        [partsCount size - 1] := by
    have hpp : partsCount size - 1 + 1 = partsCount size := by omega
    simp only [List.map_cons, List.map_nil, hpp]
    rw [Nat.min_eq_right hhigh]
  rw [hsplit, List.map_append, hmain, hlast]

/-- When all parts fit, the multipart copy loop copies each fetched part
sequentially, back to back, and returns the total length. -/
theorem mpCopy_success (parts : List (List Nat)) (b : Nat) :
    ∀ a, a + chunksLen parts ≤ b →
      writes (mpCopy parts b a).1 = seqWrites parts a
      ∧ (mpCopy parts b a).2 = Except.ok (a + chunksLen parts) := by
  induction parts with
  | nil =>
    intro a hle
    exact ⟨rfl, by simp [mpCopy, chunksLen]⟩
  | cons p rest ih =>
    intro a hle
    have hcl : chunksLen (p :: rest) = p.length + chunksLen rest := by
      simp [chunksLen]
    have hfit : a + p.length ≤ b := by omega
    obtain ⟨ihw, ihr⟩ := ih (a + p.length) (by omega)
    unfold mpCopy
    simp only [hfit, if_pos, if_true]
    constructor
    · simp only [writes, List.filterMap_cons] at ihw ⊢
      rw [seqWrites, ihw]
    · rw [ihr]
      congr 1
      omega

/-- End-to-end multipart GET assembly (the positive content of C7, for
nonzero sizes): when the head size is nonzero, fits the buffer, and the
provider returns one part per computed range totalling exactly the head
size, the worker copies the parts into the buffer sequentially in
ascending offset order, keyed by the per-part lengths, reports success
with the full size, and notifies exactly once. -/
theorem multipart_get_assembles_in_order (env : GetEnv) (bufLen size : Nat)
    (parts : List (List Nat))
    (hres : env.resolveClient = Except.ok ())
    (hbuf : part_size < bufLen)
    (hsz1 : 1 ≤ size) (hszb : size ≤ bufLen)
    (hh : env.headSize = Except.ok size)
    (hgr : env.get_ranges ((List.range (partsCount size)).map
        (fun i => (i * part_size, min ((i + 1) * part_size) size)))
      = Except.ok parts)
    (hlen : chunksLen parts = size) :
    ∃ tr, processGet env bufLen = some tr
      ∧ writes tr = seqWrites parts 0
      ∧ responses tr = [Response.success size]
      ∧ notifies tr = 1 := by
  have hpr := (partRanges_spec size hsz1).2
  have hnsz : ¬ size > bufLen := by omega
  obtain ⟨hw, hr⟩ := mpCopy_success parts bufLen 0 (by omega)
  have hmp : multipart_get env bufLen
      = some ((mpCopy parts bufLen 0).1, Except.ok size) := by
    unfold multipart_get
    simp only [hh, hnsz, if_neg, if_false, hpr, hgr]
    rw [← Prod.mk.eta (p := mpCopy parts bufLen 0)]
    rw [hr]
    simp [hlen]
  refine ⟨(mpCopy parts bufLen 0).1
      ++ [Event.setResponse (Response.success size), Event.notify], ?_, ?_, ?_, ?_⟩
  · unfold processGet
    simp only [hres, hbuf, if_pos, if_true, hmp]
  · rw [writes_append, hw]
    simp [writes]
  · rw [responses_append, mpCopy_responses parts bufLen 0]
    rfl
  · rw [notifies_append, mpCopy_notifies parts bufLen 0]
    rfl

end RustStore